import Mathlib

/-!
Verification of the MCP server in `src/index.ts` of
`obsidian-local-rest-api-mcp`.

The file shallowly embeds the program: the tool catalog published by the
`ListToolsRequestSchema` handler, the dispatch switch of the
`CallToolRequestSchema` handler, and the `ObsidianApiClient` methods that
turn a tool invocation into one outbound HTTP request.  JavaScript
`undefined` is modelled as `Option.none`; the runtime helpers the code
leans on (`encodeURIComponent`, `URLSearchParams`, `JSON.stringify`,
`JSON.parse`, `fetch`) are modelled byte- and character-faithfully below.
The network is an oracle `SentRequest → HttpResponse` supplied to the
handler, and the list of requests the handler sends is returned as a trace.
-/

/-- Model of a JSON value (the payloads exchanged with the REST API).
Numbers are restricted to integers, which covers every numeric value this
program itself puts into a request. -/
inductive Json where
  | null
  | bool (b : Bool)
  | num (n : Int)
  | str (s : String)
  | arr (elems : List Json)
  | obj (fields : List (String × Json))

/-- Uppercase hexadecimal digit, used by percent-encoding. -/
def hexUpper (n : Nat) : Char :=
  if n < 10 then Char.ofNat (48 + n) else Char.ofNat (55 + n)

/-- Percent-encoding of one UTF-8 byte under `encodeURIComponent`: the
unreserved characters `A-Z a-z 0-9 - _ . ! ~ * ' ( )` stay themselves,
every other byte becomes `%XX`. -/
def encByteURI (b : UInt8) : List Char :=
  let n := b.toNat
  if (65 ≤ n ∧ n ≤ 90) ∨ (97 ≤ n ∧ n ≤ 122) ∨ (48 ≤ n ∧ n ≤ 57) ∨
     n = 45 ∨ n = 95 ∨ n = 46 ∨ n = 33 ∨ n = 126 ∨ n = 42 ∨ n = 39 ∨ n = 40 ∨ n = 41 then
    [Char.ofNat n]
  else
    ['%', hexUpper (n / 16), hexUpper (n % 16)]

/-- Model of JavaScript `encodeURIComponent`: percent-encode the UTF-8
bytes of the string. -/
def encodeURIComponent (s : String) : String :=
  String.mk (s.toUTF8.data.toList.flatMap encByteURI)

/-- Percent-encoding of one UTF-8 byte under `URLSearchParams` query
serialization (`application/x-www-form-urlencoded`): `A-Z a-z 0-9 - . _ *`
stay themselves, space becomes `+`, every other byte becomes `%XX`. -/
def encByteForm (b : UInt8) : List Char :=
  let n := b.toNat
  if (65 ≤ n ∧ n ≤ 90) ∨ (97 ≤ n ∧ n ≤ 122) ∨ (48 ≤ n ∧ n ≤ 57) ∨
     n = 45 ∨ n = 46 ∨ n = 95 ∨ n = 42 then
    [Char.ofNat n]
  else if n = 32 then
    ['+']
  else
    ['%', hexUpper (n / 16), hexUpper (n % 16)]

/-- Form-encoding of a full string, as `URLSearchParams` applies to each
key and value when the parameter list is serialized into the URL. -/
def formEncode (s : String) : String :=
  String.mk (s.toUTF8.data.toList.flatMap encByteForm)

/-- HTTP method of an outbound request (`options.method`; `GET` when the
code passes no method to `fetch`). -/
inductive Method where
  | GET
  | POST
  | PUT
  | PATCH
  | DELETE
deriving Repr, DecidableEq

/-- One outbound API call as a client method builds it before `request`
runs it: the endpoint path (with any `encodeURIComponent`-encoded segment
already substituted), the decoded query parameters in insertion order (the
`URLSearchParams` contents), the method, and the JSON body (the object
passed to `JSON.stringify`, `none` when the call sends no body). -/
structure ApiCall where
  endpoint : String
  method : Method
  queryParams : List (String × String)
  body : Option Json

/-- Serialization of the query parameters, as `URLSearchParams.toString`
interpolated into the template literal of each client method. -/
def renderQuery (ps : List (String × String)) : String :=
  String.intercalate ("&") (ps.map (fun kv => formEncode kv.1 ++ "=" ++ formEncode kv.2))

/-- The path string a client method hands to `this.request`: the endpoint,
then `?` and the serialized query when the method built one. -/
def ApiCall.pathString (c : ApiCall) : String :=
  c.endpoint ++ (if c.queryParams.isEmpty then "" else "?" ++ renderQuery c.queryParams)

/-- Configuration parsed from the environment (`ConfigSchema`). -/
structure Config where
  baseUrl : String
  apiKey : Option String
deriving Repr, DecidableEq

/-- The private state the `ObsidianApiClient` constructor sets up: the
base URL with the fixed `/api` prefix appended, and the headers sent with
every request. -/
structure ClientState where
  baseUrl : String
  headers : List (String × String)
deriving Repr, DecidableEq

/-- The `ObsidianApiClient` constructor. -/
def ObsidianApiClient.init (config : Config) : ClientState :=
  { baseUrl := config.baseUrl ++ "/api",
    headers := [("Content-Type", "application/json"), ("Accept", "application/json")] ++
      (match config.apiKey with
       | some key => [("Authorization", "Bearer " ++ key)]
       | none => []) }

/-- One request as `fetch` receives it: the full URL built in `request`,
the method, the headers, and the body object (serialized by
`JSON.stringify` on the wire). -/
structure SentRequest where
  url : String
  method : Method
  headers : List (String × String)
  body : Option Json

/-- An HTTP response from the REST API: status, status text, and the JSON
value `response.json()` would produce from the body. -/
structure HttpResponse where
  status : Nat
  statusText : String
  body : Json

/-- The `response.ok` flag of `fetch`: status in the 200 to 299 range. -/
def HttpResponse.ok (r : HttpResponse) : Bool :=
  200 ≤ r.status ∧ r.status ≤ 299

/-- The private `request` method: build the URL from the stored base URL
and the path, send the request (here: ask the oracle), throw
`API request failed: <status> <statusText>` on a non-ok response and
return the parsed JSON body otherwise.  The thrown `Error` is modelled as
`Except.error` of its message; the request actually sent is returned so a
trace can record it. -/
def ObsidianApiClient.request (st : ClientState) (c : ApiCall)
    (oracle : SentRequest → HttpResponse) : SentRequest × Except String Json :=
  let sent : SentRequest :=
    { url := st.baseUrl ++ c.pathString, method := c.method, headers := st.headers, body := c.body }
  let response := oracle sent
  if response.ok then
    (sent, Except.ok response.body)
  else
    (sent, Except.error ("API request failed: " ++ toString response.status ++ " " ++ response.statusText))

/-- Coercion JavaScript applies when an `undefined` argument reaches a
string position (a template literal or a `URLSearchParams` value). -/
def jsString (v : Option String) : String :=
  match v with
  | some s => s
  | none => "undefined"

/-- Truthiness of a JavaScript string-or-undefined value: `undefined` and
the empty string are falsy. -/
def jsTruthyStr (v : Option String) : Bool :=
  match v with
  | some s => !(s == "")
  | none => false

/-- Truthiness of a JavaScript JSON-valued-or-undefined value:
`undefined`, `null`, `false`, `0` and `""` are falsy. -/
def jsTruthyJson (v : Option Json) : Bool :=
  match v with
  | none => false
  | some Json.null => false
  | some (Json.bool b) => b
  | some (Json.num n) => !(n == 0)
  | some (Json.str s) => !(s == "")
  | some (Json.arr _) => true
  | some (Json.obj _) => true

/-- A body field present only when the argument is not `undefined`
(`JSON.stringify` omits properties whose value is `undefined`). -/
def optStrField (k : String) (v : Option String) : List (String × Json) :=
  match v with
  | some s => [(k, Json.str s)]
  | none => []

/-- A JSON-valued body field present only when the argument is not
`undefined`. -/
def optJsonField (k : String) (v : Option Json) : List (String × Json) :=
  match v with
  | some j => [(k, j)]
  | none => []

/-- Client method `listDirectory(path = ".", recursive = false, limit = 50,
offset = 0)`: GET `/vault/directory` with the four query parameters.  A TS
default parameter applies exactly when the argument is `undefined`. -/
def ObsidianApiClient.listDirectory (path : Option String) (recursive : Option Bool)
    (limit : Option Int) (offset : Option Int) : ApiCall :=
  let path := path.getD (".")
  let recursive := recursive.getD false
  let limit := limit.getD 50
  let offset := offset.getD 0
  { endpoint := "/vault/directory", method := Method.GET,
    queryParams := [("path", path), ("recursive", toString recursive),
                    ("limit", toString limit), ("offset", toString offset)],
    body := none }

/-- Client method `readFile(path)`: GET `/files/{encodeURIComponent(path)}`. -/
def ObsidianApiClient.readFile (path : Option String) : ApiCall :=
  { endpoint := "/files/" ++ encodeURIComponent (jsString path), method := Method.GET,
    queryParams := [], body := none }

/-- Client method `writeFile(path, content, mode = "overwrite")`: POST
`/files/write` with body `{path, content, mode}`. -/
def ObsidianApiClient.writeFile (path : Option String) (content : Option String)
    (mode : Option String) : ApiCall :=
  let mode := mode.getD ("overwrite")
  { endpoint := "/files/write", method := Method.POST, queryParams := [],
    body := some (Json.obj (optStrField ("path") path ++ optStrField ("content") content ++
      [(("mode"), Json.str mode)])) }

/-- Client method `deleteItem(path)`: DELETE `/files/{encodeURIComponent(path)}`. -/
def ObsidianApiClient.deleteItem (path : Option String) : ApiCall :=
  { endpoint := "/files/" ++ encodeURIComponent (jsString path), method := Method.DELETE,
    queryParams := [], body := none }

/-- Client method `createOrUpdateNote(path, content, frontmatter = {})`:
POST `/notes/upsert` with body `{path, content, front_matter}`. -/
def ObsidianApiClient.createOrUpdateNote (path : Option String) (content : Option String)
    (frontmatter : Option Json) : ApiCall :=
  let frontmatter := frontmatter.getD (Json.obj [])
  { endpoint := "/notes/upsert", method := Method.POST, queryParams := [],
    body := some (Json.obj (optStrField ("path") path ++ optStrField ("content") content ++
      [(("front_matter"), frontmatter)])) }

/-- Client method `getDailyNote(date = "today")`: GET `/vault/notes/daily`
with query `date`. -/
def ObsidianApiClient.getDailyNote (date : Option String) : ApiCall :=
  let date := date.getD ("today")
  { endpoint := "/vault/notes/daily", method := Method.GET,
    queryParams := [("date", date)], body := none }

/-- Client method `getRecentNotes(limit = 5)`: GET `/vault/notes/recent`
with query `limit`. -/
def ObsidianApiClient.getRecentNotes (limit : Option Int) : ApiCall :=
  let limit := limit.getD 5
  { endpoint := "/vault/notes/recent", method := Method.GET,
    queryParams := [("limit", toString limit)], body := none }

/-- Client method `searchVault(query, scope = ["content", "filename",
"tags"], pathFilter?)`: GET `/vault/search` with query parameters `query`
and `scope` (the scopes joined by commas), appending `path_filter` only
when `pathFilter` is truthy. -/
def ObsidianApiClient.searchVault (query : Option String) (scope : Option (List String))
    (pathFilter : Option String) : ApiCall :=
  let scope := scope.getD ["content", "filename", "tags"]
  { endpoint := "/vault/search", method := Method.GET,
    queryParams := [("query", jsString query), ("scope", String.intercalate (",") scope)] ++
      (if jsTruthyStr pathFilter then [("path_filter", jsString pathFilter)] else []),
    body := none }

/-- Client method `findRelatedNotes(path, on = ["tags", "links"])` (`on` is a Lean keyword, written `on_` here): GET
`/vault/notes/related/{encodeURIComponent(path)}` with query `on`. -/
def ObsidianApiClient.findRelatedNotes (path : Option String) (on_ : Option (List String)) : ApiCall :=
  let on_ := on_.getD ["tags", "links"]
  { endpoint := "/vault/notes/related/" ++ encodeURIComponent (jsString path), method := Method.GET,
    queryParams := [("on", String.intercalate (",") on_)], body := none }

/-- Legacy client method `listNotes()`: GET `/notes`. -/
def ObsidianApiClient.listNotes : ApiCall :=
  { endpoint := "/notes", method := Method.GET, queryParams := [], body := none }

/-- Legacy client method `getNote(path)`: GET `/notes/{encodeURIComponent(path)}`. -/
def ObsidianApiClient.getNote (path : Option String) : ApiCall :=
  { endpoint := "/notes/" ++ encodeURIComponent (jsString path), method := Method.GET,
    queryParams := [], body := none }

/-- Legacy client method `createNote(path, content, frontmatter?)`: POST
`/notes` with body `{path, content}`, adding `frontmatter` only when that
argument is truthy (`if (frontmatter)`). -/
def ObsidianApiClient.createNote (path : Option String) (content : Option String)
    (frontmatter : Option Json) : ApiCall :=
  { endpoint := "/notes", method := Method.POST, queryParams := [],
    body := some (Json.obj (optStrField ("path") path ++ optStrField ("content") content ++
      (if jsTruthyJson frontmatter then [(("frontmatter"), frontmatter.getD Json.null)] else []))) }

/-- Legacy client method `updateNote(path, content?, frontmatter?)`: PATCH
`/notes/{encodeURIComponent(path)}` with a body holding exactly the fields
whose arguments are not `undefined` (`!== undefined` presence checks). -/
def ObsidianApiClient.updateNote (path : Option String) (content : Option String)
    (frontmatter : Option Json) : ApiCall :=
  { endpoint := "/notes/" ++ encodeURIComponent (jsString path), method := Method.PATCH,
    queryParams := [],
    body := some (Json.obj (optStrField ("content") content ++
      optJsonField ("frontmatter") frontmatter)) }

/-- Legacy client method `getMetadataKeys()`: GET `/metadata/keys`. -/
def ObsidianApiClient.getMetadataKeys : ApiCall :=
  { endpoint := "/metadata/keys", method := Method.GET, queryParams := [], body := none }

/-- Legacy client method `getMetadataValues(key)`: GET
`/metadata/values/{encodeURIComponent(key)}`. -/
def ObsidianApiClient.getMetadataValues (key : Option String) : ApiCall :=
  { endpoint := "/metadata/values/" ++ encodeURIComponent (jsString key), method := Method.GET,
    queryParams := [], body := none }

/-- The argument bag of a tool invocation (`request.params.arguments`),
projected to the keys the dispatcher reads; a missing key is `none`
(JavaScript `undefined` under `args?.<key>`). -/
structure ToolArgs where
  path : Option String := none
  content : Option String := none
  mode : Option String := none
  recursive : Option Bool := none
  limit : Option Int := none
  offset : Option Int := none
  frontmatter : Option Json := none
  date : Option String := none
  query : Option String := none
  scope : Option (List String) := none
  path_filter : Option String := none
  on_ : Option (List String) := none
  search : Option String := none
  key : Option String := none

/-- The switch of the `CallToolRequestSchema` handler, reduced to the one
outbound call each case makes: `some` of the `ApiCall` the named client
method builds, or `none` for the `default` case (`throw new Error("Unknown
tool: ...")`).  A JavaScript `switch` on a string compares the scrutinee
against each case label in order, exactly this `if`-chain. -/
def dispatchCall (name : String) (args : ToolArgs) : Option ApiCall :=
  if name = "list_directory" then
    some (ObsidianApiClient.listDirectory args.path args.recursive args.limit args.offset)
  else if name = "read_file" then
    some (ObsidianApiClient.readFile args.path)
  else if name = "write_file" then
    some (ObsidianApiClient.writeFile args.path args.content args.mode)
  else if name = "delete_item" then
    some (ObsidianApiClient.deleteItem args.path)
  else if name = "create_or_update_note" then
    some (ObsidianApiClient.createOrUpdateNote args.path args.content args.frontmatter)
  else if name = "get_daily_note" then
    some (ObsidianApiClient.getDailyNote args.date)
  else if name = "get_recent_notes" then
    some (ObsidianApiClient.getRecentNotes args.limit)
  else if name = "search_vault" then
    some (ObsidianApiClient.searchVault args.query args.scope args.path_filter)
  else if name = "find_related_notes" then
    some (ObsidianApiClient.findRelatedNotes args.path args.on_)
  else if name = "list_notes" then
    some (if jsTruthyStr args.search then
            ObsidianApiClient.searchVault args.search (some ["content", "filename", "tags"]) none
          else
            ObsidianApiClient.listNotes)
  else if name = "get_note" then
    some (ObsidianApiClient.getNote args.path)
  else if name = "get_metadata_keys" then
    some ObsidianApiClient.getMetadataKeys
  else if name = "get_metadata_values" then
    some (ObsidianApiClient.getMetadataValues args.key)
  else
    none

/-- The case labels of the dispatcher's switch, in source order. -/
def dispatchCaseNames : List String :=
  ["list_directory", "read_file", "write_file", "delete_item", "create_or_update_note",
   "get_daily_note", "get_recent_notes", "search_vault", "find_related_notes",
   "list_notes", "get_note", "get_metadata_keys", "get_metadata_values"]

/-- Lowercase hexadecimal digit, used by `JSON.stringify` for `\uXXXX`
escapes of control characters. -/
def hexLower (n : Nat) : Char :=
  if n < 10 then Char.ofNat (48 + n) else Char.ofNat (87 + n)

/-- How `JSON.stringify` writes one character inside a string literal:
quote and backslash get a backslash escape, the named control characters
use their short escapes, other control characters use `\u00XX`, and every
other character stands for itself. -/
def escChar (c : Char) : List Char :=
  if c = '"' then ['\\', '"']
  else if c = '\\' then ['\\', '\\']
  else if c = '\x08' then ['\\', 'b']
  else if c = '\t' then ['\\', 't']
  else if c = '\n' then ['\\', 'n']
  else if c = '\x0c' then ['\\', 'f']
  else if c = '\r' then ['\\', 'r']
  else if c.toNat < 32 then ['\\', 'u', '0', '0', hexLower (c.toNat / 16), hexLower (c.toNat % 16)]
  else [c]

/-- Escape every character of a string body. -/
def escString : List Char → List Char
  | [] => []
  | c :: cs => escChar c ++ escString cs

/-- A JSON string literal: quote, escaped body, quote. -/
def quoteChars (s : String) : List Char :=
  '"' :: (escString s.data ++ ['"'])

/-- Decimal digit character. -/
def digitChar (n : Nat) : Char := Char.ofNat (48 + n)

/-- Decimal digits of a natural number, most significant first. -/
def natChars (n : Nat) : List Char :=
  if n < 10 then [digitChar n] else natChars (n / 10) ++ [digitChar (n % 10)]
termination_by n
decreasing_by
  exact Nat.div_lt_self (by omega) (by omega)

/-- Decimal rendering of an integer, as JavaScript prints whole numbers. -/
def intChars (n : Int) : List Char :=
  if n < 0 then '-' :: natChars n.natAbs else natChars n.toNat

/-- Indentation: `ind` spaces. -/
def spacesChars (ind : Nat) : List Char := List.replicate ind (' ')

mutual

/-- Rendering of `JSON.stringify(v, null, 2)` at current indentation depth
`ind` (the handler calls it with `ind = 0`): scalars print inline, a
non-empty array or object opens its bracket, puts each child on its own
line indented two further spaces, and closes the bracket back at `ind`. -/
def renderVal (ind : Nat) (v : Json) : List Char :=
  match v with
  | Json.null => ['n', 'u', 'l', 'l']
  | Json.bool true => ['t', 'r', 'u', 'e']
  | Json.bool false => ['f', 'a', 'l', 's', 'e']
  | Json.num n => intChars n
  | Json.str s => quoteChars s
  | Json.arr [] => ['[', ']']
  | Json.arr (x :: xs) =>
      '[' :: '\n' :: (renderElems (ind + 2) x xs ++ '\n' :: (spacesChars ind ++ [']']))
  | Json.obj [] => ['\x7b', '\x7d']
  | Json.obj (f :: fs) =>
      '\x7b' :: '\n' :: (renderFields (ind + 2) f fs ++ '\n' :: (spacesChars ind ++ ['\x7d']))
termination_by 2 * sizeOf v
decreasing_by
  all_goals first
    | (simp; omega)
    | (obtain ⟨a, b⟩ := f; simp; omega)

/-- Rendering of the elements of a non-empty array, comma-and-newline
separated, each line indented by `ind`. -/
def renderElems (ind : Nat) (x : Json) (xs : List Json) : List Char :=
  spacesChars ind ++ renderVal ind x ++ renderElemsTail ind xs
termination_by 2 * (sizeOf x + sizeOf xs) + 1
decreasing_by
  all_goals omega

/-- The separator-and-next-elements chunk after one array element. -/
def renderElemsTail (ind : Nat) (xs : List Json) : List Char :=
  match xs with
  | [] => []
  | y :: ys => ',' :: '\n' :: renderElems ind y ys
termination_by 2 * sizeOf xs
decreasing_by
  all_goals first
    | omega
    | (simp; omega)

/-- Rendering of the members of a non-empty object: `"key": value`
lines, comma separated. -/
def renderFields (ind : Nat) (f : String × Json) (fs : List (String × Json)) : List Char :=
  spacesChars ind ++ quoteChars f.1 ++ (':' :: ' ' :: renderVal ind f.2) ++
    renderFieldsTail ind fs
termination_by 2 * (sizeOf f.2 + sizeOf fs) + 1
decreasing_by
  all_goals omega

/-- The separator-and-next-members chunk after one object member. -/
def renderFieldsTail (ind : Nat) (fs : List (String × Json)) : List Char :=
  match fs with
  | [] => []
  | g :: gs => ',' :: '\n' :: renderFields ind g gs
termination_by 2 * sizeOf fs
decreasing_by
  all_goals first
    | omega
    | (simp; omega)
    | (obtain ⟨a, b⟩ := g; simp; omega)

end

/-- The string `JSON.stringify(v, null, 2)` produces. -/
def jsonStringify (v : Json) : String := String.mk (renderVal 0 v)

/-- JSON insignificant whitespace. -/
def isWs (c : Char) : Bool :=
  c = ' ' ∨ c = '\n' ∨ c = '\t' ∨ c = '\r'

/-- Drop leading whitespace. -/
def skipWs : List Char → List Char
  | [] => []
  | c :: cs => if isWs c then skipWs cs else c :: cs

/-- A decimal digit character (code 48 to 57). -/
def isDigitChar (c : Char) : Bool :=
  48 ≤ c.toNat ∧ c.toNat ≤ 57

/-- Value of one hexadecimal digit, if the character is one. -/
def hexVal (c : Char) : Option Nat :=
  if 48 ≤ c.toNat ∧ c.toNat ≤ 57 then some (c.toNat - 48)
  else if 97 ≤ c.toNat ∧ c.toNat ≤ 102 then some (c.toNat - 87)
  else if 65 ≤ c.toNat ∧ c.toNat ≤ 70 then some (c.toNat - 55)
  else none

/-- Decoding of a single-character JSON string escape. -/
def escDecode (c : Char) : Option Char :=
  if c = '"' then some ('"')
  else if c = '\\' then some ('\\')
  else if c = '/' then some ('/')
  else if c = 'b' then some ('\x08')
  else if c = 'f' then some ('\x0c')
  else if c = 'n' then some ('\n')
  else if c = 'r' then some ('\r')
  else if c = 't' then some ('\t')
  else none

/-- String-body parsing of `JSON.parse`, entered after the opening quote:
collect characters up to the closing quote, decoding backslash escapes
and `\uXXXX` sequences. -/
def parseStrChars : List Char → Option (List Char × List Char)
  | [] => none
  | c :: rest =>
    if c = '"' then some ([], rest)
    else if c = '\\' then
      match rest with
      | [] => none
      | e :: rest2 =>
        if e = 'u' then
          match rest2 with
          | h1 :: h2 :: h3 :: h4 :: rest3 =>
            (match hexVal h1, hexVal h2, hexVal h3, hexVal h4 with
             | some a, some b, some x, some d =>
                 (parseStrChars rest3).map
                   (fun p => (Char.ofNat (((a * 16 + b) * 16 + x) * 16 + d) :: p.1, p.2))
             | _, _, _, _ => none)
          | _ => none
        else
          (match escDecode e with
           | some d => (parseStrChars rest2).map (fun p => (d :: p.1, p.2))
           | none => none)
    else (parseStrChars rest).map (fun p => (c :: p.1, p.2))

/-- Split off the maximal run of leading decimal digits. -/
def takeDigits : List Char → List Char × List Char
  | [] => ([], [])
  | c :: cs =>
      if isDigitChar c then
        let p := takeDigits cs
        (c :: p.1, p.2)
      else
        ([], c :: cs)

/-- Value of one decimal digit character. -/
def digitVal (c : Char) : Nat := c.toNat - 48

/-- Numeric value of a digit run, most significant first. -/
def digitsToNat (acc : Nat) : List Char → Nat
  | [] => acc
  | c :: cs => digitsToNat (acc * 10 + digitVal c) cs

/-- Number parsing of `JSON.parse`, restricted to the whole numbers this
model renders: an optional minus sign and a nonempty digit run. -/
def parseNum (cs : List Char) : Option (Json × List Char) :=
  match cs with
  | [] => none
  | c :: rest =>
    if c = '-' then
      (match takeDigits rest with
       | ([], _) => none
       | (ds, r) => some (Json.num (-(Int.ofNat (digitsToNat 0 ds))), r))
    else
      (match takeDigits (c :: rest) with
       | ([], _) => none
       | (ds, r) => some (Json.num (Int.ofNat (digitsToNat 0 ds)), r))

/-- Expect a fixed sequence of characters, returning the remainder. -/
def expectChars : List Char → List Char → Option (List Char)
  | [], cs => some cs
  | p :: ps, c :: cs => if c = p then expectChars ps cs else none
  | _ :: _, [] => none

mutual

/-- Value parsing of `JSON.parse`: skip whitespace, then parse one JSON
value, returning it with the unconsumed remainder.  `fuel` bounds the
recursion and only ever makes the parser refuse input deeper than the
input length allows; `parseJson` passes enough for any input. -/
def parseVal : Nat → List Char → Option (Json × List Char)
  | 0, _ => none
  | fuel + 1, cs =>
    match skipWs cs with
    | [] => none
    | c :: cs1 =>
      if c = 'n' then (expectChars (['u', 'l', 'l']) cs1).map (fun r => (Json.null, r))
      else if c = 't' then (expectChars (['r', 'u', 'e']) cs1).map (fun r => (Json.bool true, r))
      else if c = 'f' then (expectChars (['a', 'l', 's', 'e']) cs1).map (fun r => (Json.bool false, r))
      else if c = '"' then (parseStrChars cs1).map (fun p => (Json.str (String.mk p.1), p.2))
      else if c = '[' then
        (match skipWs cs1 with
         | [] => (parseElems fuel []).map (fun p => (Json.arr p.1, p.2))
         | d :: r =>
             if d = ']' then some (Json.arr [], r)
             else (parseElems fuel (d :: r)).map (fun p => (Json.arr p.1, p.2)))
      else if c = '\x7b' then
        (match skipWs cs1 with
         | [] => (parseFields fuel []).map (fun p => (Json.obj p.1, p.2))
         | d :: r =>
             if d = '\x7d' then some (Json.obj [], r)
             else (parseFields fuel (d :: r)).map (fun p => (Json.obj p.1, p.2)))
      else if c = '-' ∨ isDigitChar c then parseNum (c :: cs1)
      else none

/-- Element-list parsing of a non-empty JSON array, entered after `[`. -/
def parseElems : Nat → List Char → Option (List Json × List Char)
  | 0, _ => none
  | fuel + 1, cs =>
    match parseVal fuel cs with
    | none => none
    | some (v, rest) =>
      match skipWs rest with
      | [] => none
      | d :: r =>
          if d = ',' then (parseElems fuel r).map (fun p => (v :: p.1, p.2))
          else if d = ']' then some ([v], r)
          else none

/-- Member-list parsing of a non-empty JSON object, entered after the
opening brace. -/
def parseFields : Nat → List Char → Option (List (String × Json) × List Char)
  | 0, _ => none
  | fuel + 1, cs =>
    match skipWs cs with
    | [] => none
    | c :: cs1 =>
      if c = '"' then
        (match parseStrChars cs1 with
         | none => none
         | some (k, rest) =>
           match skipWs rest with
           | [] => none
           | d :: cs2 =>
             if d = ':' then
               (match parseVal fuel cs2 with
                | none => none
                | some (v, rest2) =>
                  match skipWs rest2 with
                  | [] => none
                  | e :: r =>
                      if e = ',' then
                        (parseFields fuel r).map (fun p => ((String.mk k, v) :: p.1, p.2))
                      else if e = '\x7d' then some ([(String.mk k, v)], r)
                      else none)
             else none)
      else none

end

/-- A list of whitespace characters only. -/
def wsOnly (w : List Char) : Prop := ∀ c ∈ w, isWs c = true

/-- A remainder the greedy number parser cannot eat into: empty, or not
starting with a digit. -/
def headSafe : List Char → Prop
  | [] => True
  | c :: _ => isDigitChar c = false

mutual

/-- Recursion budget a value needs from `parseVal`. -/
def nodesJson : Json → Nat
  | Json.null => 1
  | Json.bool _ => 1
  | Json.num _ => 1
  | Json.str _ => 1
  | Json.arr xs => 1 + nodesList xs
  | Json.obj fs => 1 + nodesFields fs
termination_by v => 2 * sizeOf v
decreasing_by
  all_goals (simp <;> omega)

/-- Recursion budget an element list needs from `parseElems`. -/
def nodesList : List Json → Nat
  | [] => 0
  | x :: xs => nodesJson x + 1 + nodesList xs
termination_by xs => 2 * sizeOf xs + 1
decreasing_by
  all_goals (simp <;> omega)

/-- Recursion budget a member list needs from `parseFields`. -/
def nodesFields : List (String × Json) → Nat
  | [] => 0
  | (k, v) :: fs => nodesJson v + 1 + nodesFields fs
termination_by fs => 2 * sizeOf fs + 1
decreasing_by
  all_goals (simp <;> omega)

end

/-- Model of `JSON.parse`: parse one value and require only whitespace
after it. -/
def parseJson (s : String) : Option Json :=
  match parseVal (s.data.length + 1) s.data with
  | some (v, rest) => if (skipWs rest).isEmpty then some v else none
  | none => none

/-- One content block of a tool result (`{ type: "text", text }`). -/
structure TextContent where
  type : String
  text : String

/-- The envelope the `CallToolRequestSchema` handler returns: the content
blocks, and the `isError` flag (absent on the success path, modelled as
`false`). -/
structure ToolResult where
  content : List TextContent
  isError : Bool

/-- The whole `CallToolRequestSchema` handler for one invocation: route
the tool name through the switch, run the one outbound request the chosen
client method builds, and wrap the outcome — pretty-printed JSON in a
success envelope, or `Error: <message>` with `isError: true` from the
`catch` block (which also receives the `Unknown tool` throw of the
`default` case).  The second component is the trace of requests sent. -/
def handleCallTool (config : Config) (name : String) (args : ToolArgs)
    (oracle : SentRequest → HttpResponse) : ToolResult × List SentRequest :=
  match dispatchCall name args with
  | none =>
      ({ content := [{ type := "text", text := "Error: " ++ ("Unknown tool: " ++ name) }],
         isError := true }, [])
  | some c =>
      let st := ObsidianApiClient.init config
      let sentRes := ObsidianApiClient.request st c oracle
      match sentRes.2 with
      | Except.ok v =>
          ({ content := [{ type := "text", text := jsonStringify v }], isError := false },
           [sentRes.1])
      | Except.error msg =>
          ({ content := [{ type := "text", text := "Error: " ++ msg }], isError := true },
           [sentRes.1])

/-- One property of a tool's declared `inputSchema`: name, JSON-schema
type, description, and the optional `default`, `enum` and array-items
annotations the catalog declares. -/
structure PropSchema where
  pname : String
  ptype : String
  description : String
  defaultVal : Option Json := none
  enumVals : Option (List String) := none
  itemsType : Option String := none
  itemsEnum : Option (List String) := none

/-- One entry of the published tool catalog. -/
structure ToolDefinition where
  name : String
  description : String
  properties : List PropSchema
  required : List String := []

/-- The static catalog the `ListToolsRequestSchema` handler returns, in
source order. -/
def toolCatalog : List ToolDefinition :=
  [{ name := "list_directory",
     description := "List directory contents with pagination to prevent context overflow. Shows immediate contents by default.",
     properties :=
       [{ pname := "path", ptype := "string", description := "Directory path to list",
          defaultVal := some (Json.str (".")) },
        { pname := "recursive", ptype := "boolean", description := "Include subdirectories recursively",
          defaultVal := some (Json.bool false) },
        { pname := "limit", ptype := "number", description := "Maximum items to return",
          defaultVal := some (Json.num 50) },
        { pname := "offset", ptype := "number", description := "Pagination offset",
          defaultVal := some (Json.num 0) }] },
   { name := "read_file",
     description := "Read content of a specific file from the vault",
     properties := [{ pname := "path", ptype := "string", description := "Path to the file" }],
     required := ["path"] },
   { name := "write_file",
     description := "Write file content with different modes: overwrite (default), append, or prepend. Handles both create and update operations.",
     properties :=
       [{ pname := "path", ptype := "string", description := "Path to the file" },
        { pname := "content", ptype := "string", description := "Content to write" },
        { pname := "mode", ptype := "string", description := "Write mode",
          enumVals := some ["overwrite", "append", "prepend"],
          defaultVal := some (Json.str ("overwrite")) }],
     required := ["path", "content"] },
   { name := "delete_item",
     description := "Delete a file or directory from the vault",
     properties := [{ pname := "path", ptype := "string", description := "Path to the item to delete" }],
     required := ["path"] },
   { name := "create_or_update_note",
     description := "Create or update a note with content and frontmatter. Performs upsert operation - creates if doesn\x27t exist, updates if it does.",
     properties :=
       [{ pname := "path", ptype := "string", description := "Path for the note (without .md extension)" },
        { pname := "content", ptype := "string", description := "Note content" },
        { pname := "frontmatter", ptype := "object", description := "Frontmatter metadata",
          defaultVal := some (Json.obj []) }],
     required := ["path", "content"] },
   { name := "get_daily_note",
     description := "Get daily note for a specific date. Handles common daily note naming conventions and file locations.",
     properties :=
       [{ pname := "date", ptype := "string",
          description := "Date (today, yesterday, tomorrow, or YYYY-MM-DD)",
          defaultVal := some (Json.str ("today")) }] },
   { name := "get_recent_notes",
     description := "Get recently modified notes, ordered by modification time",
     properties :=
       [{ pname := "limit", ptype := "number", description := "Number of recent notes to return",
          defaultVal := some (Json.num 5) }] },
   { name := "search_vault",
     description := "Search vault content across files, filenames, and metadata with advanced filtering",
     properties :=
       [{ pname := "query", ptype := "string", description := "Search query" },
        { pname := "scope", ptype := "array",
          description := "Search scope - where to look for the query",
          itemsType := some ("string"), itemsEnum := some ["content", "filename", "tags"],
          defaultVal := some (Json.arr [Json.str ("content"), Json.str ("filename"), Json.str ("tags")]) },
        { pname := "path_filter", ptype := "string", description := "Limit search to specific path prefix" }],
     required := ["query"] },
   { name := "find_related_notes",
     description := "Find notes related to a given note based on shared tags, links, or backlinks",
     properties :=
       [{ pname := "path", ptype := "string", description := "Path to the source note" },
        { pname := "on", ptype := "array",
          description := "Relationship criteria to use for finding related notes",
          itemsType := some ("string"), itemsEnum := some ["tags", "links"],
          defaultVal := some (Json.arr [Json.str ("tags"), Json.str ("links")]) }],
     required := ["path"] },
   { name := "get_note",
     description := "Get a specific note with its content and metadata (legacy)",
     properties := [{ pname := "path", ptype := "string", description := "Path to the note" }],
     required := ["path"] },
   { name := "list_notes",
     description := "List all notes in the vault with optional search filter (legacy with search support)",
     properties := [{ pname := "search", ptype := "string", description := "Optional search query to filter notes" }] },
   { name := "get_metadata_keys",
     description := "Get all available frontmatter keys from notes",
     properties := [] },
   { name := "get_metadata_values",
     description := "Get all unique values for a specific frontmatter key",
     properties := [{ pname := "key", ptype := "string", description := "Frontmatter key" }],
     required := ["key"] }]

/-- The names the catalog advertises, in order. -/
def catalogNames : List String := toolCatalog.map ToolDefinition.name

/-- A valid code point round-trips through `Char.ofNat`. -/
theorem char_toNat_ofNat (n : Nat) (h : n < 55296) : (Char.ofNat n).toNat = n := by
  have hv : Nat.isValidChar n := Or.inl h
  simp [Char.ofNat, hv, Char.ofNatAux, Char.toNat, UInt32.toNat, BitVec.toNat_ofNatLt]

/-- The code point of the path separator. -/
theorem slash_toNat : ('/').toNat = 47 := rfl

/-- No hexadecimal digit renders as a slash. -/
theorem hexUpper_ne_slash (k : Nat) (h : k < 16) : hexUpper k ≠ '/' := by
  intro he
  have h2 := congrArg Char.toNat he
  rw [slash_toNat] at h2
  unfold hexUpper at h2
  split at h2
  · rw [char_toNat_ofNat (48 + k) (by omega)] at h2
    omega
  · rw [char_toNat_ofNat (55 + k) (by omega)] at h2
    omega

/-- No byte's `encodeURIComponent` encoding contains a slash: `/` (code
47) is not in the unreserved set, and percent escapes use `%` and hex
digits only. -/
theorem slash_not_mem_encByteURI (b : UInt8) : ('/') ∉ encByteURI b := by
  have hb : b.toNat < 256 := b.toNat_lt
  intro hmem
  simp only [encByteURI] at hmem
  split at hmem
  · next hcond =>
    simp only [List.mem_singleton] at hmem
    have h2 := congrArg Char.toNat hmem
    rw [slash_toNat, char_toNat_ofNat b.toNat (by omega)] at h2
    omega
  · simp only [List.mem_cons, List.mem_singleton, List.not_mem_nil, or_false] at hmem
    rcases hmem with h | h | h
    · exact absurd h (by decide)
    · exact absurd h.symm (hexUpper_ne_slash (b.toNat / 16) (by omega))
    · exact absurd h.symm (hexUpper_ne_slash (b.toNat % 16) (by omega))

/-- The encoded form of any vault path contains no slash. -/
theorem slash_not_mem_encodeURIComponent (p : String) :
    ('/') ∉ (encodeURIComponent p).data := by
  intro hmem
  have : ∃ b ∈ p.toUTF8.data.toList, ('/') ∈ encByteURI b := by
    simpa [encodeURIComponent, List.mem_flatMap] using hmem
  obtain ⟨b, _, hb⟩ := this
  exact slash_not_mem_encByteURI b hb

/-- The dispatcher's switch succeeds exactly on its case labels. -/
theorem dispatchCall_isSome_iff (n : String) (args : ToolArgs) :
    (dispatchCall n args).isSome = true ↔ n ∈ dispatchCaseNames := by
  constructor
  · intro h
    by_contra hn
    simp only [dispatchCaseNames, List.mem_cons, List.not_mem_nil, or_false, not_or] at hn
    obtain ⟨g1, g2, g3, g4, g5, g6, g7, g8, g9, g10, g11, g12, g13⟩ := hn
    unfold dispatchCall at h
    rw [if_neg g1, if_neg g2, if_neg g3, if_neg g4, if_neg g5, if_neg g6, if_neg g7,
        if_neg g8, if_neg g9, if_neg g10, if_neg g11, if_neg g12, if_neg g13] at h
    simp at h
  · intro h
    simp only [dispatchCaseNames, List.mem_cons, List.not_mem_nil, or_false] at h
    rcases h with h | h | h | h | h | h | h | h | h | h | h | h | h
    all_goals subst h
    all_goals rfl

/-- The catalog's names are a permutation of the switch's case labels
(the catalog lists `get_note` before `list_notes`, the switch the other
way around). -/
theorem catalogNames_perm : catalogNames.Perm dispatchCaseNames := by
  decide

/-- C1: the set of tool names advertised by the list-tools catalog is
exactly the set handled by the call dispatcher's switch: each catalog
name appears once, each switch case label appears once, the two sets
coincide, and the dispatcher resolves a name (rather than falling to the
unknown-tool default) exactly for the catalog's names. -/
theorem catalog_and_dispatch_lockstep :
    catalogNames.Nodup ∧ dispatchCaseNames.Nodup ∧
    (∀ n, n ∈ catalogNames ↔ n ∈ dispatchCaseNames) ∧
    (∀ n args, (dispatchCall n args).isSome = true ↔ n ∈ catalogNames) := by
  refine ⟨by decide, by decide, fun n => catalogNames_perm.mem_iff, fun n args => ?_⟩
  rw [dispatchCall_isSome_iff]
  exact catalogNames_perm.mem_iff.symm

/-- C2: a legacy `list_notes` call with a filter string is redirected to
GET `/vault/search` with scope exactly `content,filename,tags`, and a
call with no `search` argument goes to the plain GET `/notes` listing. -/
theorem list_notes_search_redirect (args : ToolArgs) (s : String)
    (h1 : args.search = some s) (h2 : s ≠ "") :
    dispatchCall ("list_notes") args =
      some { endpoint := "/vault/search", method := Method.GET,
             queryParams := [("query", s), ("scope", "content,filename,tags")],
             body := none } ∧
    ∀ args2 : ToolArgs, args2.search = none →
      dispatchCall ("list_notes") args2 =
        some { endpoint := "/notes", method := Method.GET, queryParams := [],
               body := none } := by
  constructor
  · simp [dispatchCall, h1, jsTruthyStr, h2, ObsidianApiClient.searchVault, jsString]
    rfl
  · intro args2 hnone
    simp [dispatchCall, hnone, jsTruthyStr, ObsidianApiClient.listNotes]

/-- Witness for C2 at the concrete filter `"project"` and an argument bag
with no `search` key. -/
theorem list_notes_search_redirect_witness :
    dispatchCall ("list_notes") { search := some ("project") } =
      some { endpoint := "/vault/search", method := Method.GET,
             queryParams := [("query", "project"), ("scope", "content,filename,tags")],
             body := none } ∧
    ∀ args2 : ToolArgs, args2.search = none →
      dispatchCall ("list_notes") args2 =
        some { endpoint := "/notes", method := Method.GET, queryParams := [],
               body := none } :=
  list_notes_search_redirect { search := some ("project") } ("project") rfl (by decide)

/-- C3: a call whose tool name is not in the catalog returns an error
envelope (`isError: true`) whose single text block contains the literal
tool name, no request is sent, and the handler returns normally (it is a
total function: nothing propagates past the `catch`). -/
theorem unknown_tool_error_envelope (config : Config) (name : String) (args : ToolArgs)
    (oracle : SentRequest → HttpResponse) (h : name ∉ catalogNames) :
    handleCallTool config name args oracle =
      ({ content := [{ type := "text", text := "Error: Unknown tool: " ++ name }],
         isError := true }, []) := by
  have hmem : name ∉ dispatchCaseNames := fun hc => h (catalogNames_perm.mem_iff.mpr hc)
  have hnone : dispatchCall name args = none := by
    cases hd : dispatchCall name args with
    | none => rfl
    | some c =>
        exact absurd ((dispatchCall_isSome_iff name args).mp (by rw [hd]; rfl)) hmem
  unfold handleCallTool
  rw [hnone]
  rfl

/-- Witness for C3: calling `"not_a_real_tool"` against a stub network. -/
theorem unknown_tool_error_envelope_witness :
    handleCallTool { baseUrl := "http://localhost:8000", apiKey := none }
        ("not_a_real_tool") {} (fun _ => { status := 200, statusText := "OK", body := Json.null }) =
      ({ content := [{ type := "text", text := "Error: Unknown tool: " ++ "not_a_real_tool" }],
         isError := true }, []) :=
  unknown_tool_error_envelope _ _ _ _ (by decide)

/-- C4: when every response of the network has a status outside 200–299,
a call to any cataloged tool sends exactly one request (no retry), and
the result is an error envelope — never a success envelope — whose text
carries the numeric status and the status text verbatim. -/
theorem non2xx_single_attempt_error (config : Config) (name : String) (args : ToolArgs)
    (oracle : SentRequest → HttpResponse)
    (hname : name ∈ catalogNames)
    (hbad : ∀ s, (oracle s).status < 200 ∨ 299 < (oracle s).status) :
    (handleCallTool config name args oracle).2.length = 1 ∧
    (handleCallTool config name args oracle).1.isError = true ∧
    ∀ s ∈ (handleCallTool config name args oracle).2,
      (handleCallTool config name args oracle).1.content =
        [{ type := "text",
           text := "Error: " ++ ("API request failed: " ++ toString (oracle s).status ++
             " " ++ (oracle s).statusText) }] := by
  have hmem : name ∈ dispatchCaseNames := catalogNames_perm.mem_iff.mp hname
  obtain ⟨c, hc⟩ := Option.isSome_iff_exists.mp ((dispatchCall_isSome_iff name args).mpr hmem)
  have hok : ∀ s, (oracle s).ok = false := by
    intro s
    have h := hbad s
    simp only [HttpResponse.ok, decide_eq_false_iff_not]
    omega
  unfold handleCallTool
  rw [hc]
  simp only [ObsidianApiClient.request, hok, Bool.false_eq_true, if_false]
  refine ⟨by trivial, by trivial, ?_⟩
  intro s hs
  simp only [List.mem_singleton] at hs
  subst hs
  rfl

/-- Witness for C4: `read_file` against a network answering 404. -/
theorem non2xx_single_attempt_error_witness :
    (handleCallTool { baseUrl := "http://localhost:8000", apiKey := none } ("read_file")
        { path := some ("note.md") }
        (fun _ => { status := 404, statusText := "Not Found", body := Json.null })).2.length = 1 ∧
    (handleCallTool { baseUrl := "http://localhost:8000", apiKey := none } ("read_file")
        { path := some ("note.md") }
        (fun _ => { status := 404, statusText := "Not Found", body := Json.null })).1.isError = true ∧
    ∀ s ∈ (handleCallTool { baseUrl := "http://localhost:8000", apiKey := none } ("read_file")
        { path := some ("note.md") }
        (fun _ => { status := 404, statusText := "Not Found", body := Json.null })).2,
      (handleCallTool { baseUrl := "http://localhost:8000", apiKey := none } ("read_file")
        { path := some ("note.md") }
        (fun _ => { status := 404, statusText := "Not Found", body := Json.null })).1.content =
        [{ type := "text",
           text := "Error: " ++ ("API request failed: " ++
             toString ((fun (_ : SentRequest) =>
               ({ status := 404, statusText := "Not Found", body := Json.null } : HttpResponse)) s).status ++
             " " ++ ((fun (_ : SentRequest) =>
               ({ status := 404, statusText := "Not Found", body := Json.null } : HttpResponse)) s).statusText) }] :=
  non2xx_single_attempt_error _ _ _ _ (by decide) (fun _ => Or.inr (by decide))

/-- C5: with only required arguments supplied and every optional argument
omitted, each tool's outbound request carries exactly the documented
defaults: `write_file` gets body mode `"overwrite"`, `get_recent_notes`
gets query `limit=5`, `list_directory` gets path `"."`, recursive
`false`, limit `50`, offset `0`, `get_daily_note` gets `date=today`, and
`search_vault` gets `scope=content,filename,tags`. -/
theorem omitted_optionals_apply_defaults :
    (∀ p c : String, dispatchCall ("write_file") { path := some p, content := some c } =
       some { endpoint := "/files/write", method := Method.POST, queryParams := [],
              body := some (Json.obj [("path", Json.str p), ("content", Json.str c),
                                      ("mode", Json.str ("overwrite"))]) }) ∧
    (dispatchCall ("get_recent_notes") {} =
       some { endpoint := "/vault/notes/recent", method := Method.GET,
              queryParams := [("limit", "5")], body := none }) ∧
    (dispatchCall ("list_directory") {} =
       some { endpoint := "/vault/directory", method := Method.GET,
              queryParams := [("path", "."), ("recursive", "false"),
                              ("limit", "50"), ("offset", "0")], body := none }) ∧
    (dispatchCall ("get_daily_note") {} =
       some { endpoint := "/vault/notes/daily", method := Method.GET,
              queryParams := [("date", "today")], body := none }) ∧
    (∀ q : String, dispatchCall ("search_vault") { query := some q } =
       some { endpoint := "/vault/search", method := Method.GET,
              queryParams := [("query", q), ("scope", "content,filename,tags")],
              body := none }) :=
  ⟨fun _ _ => rfl, rfl, rfl, rfl, fun _ => rfl⟩

/-- C6: a vault path handed to `read_file`, `delete_item` or `get_note`
is percent-encoded into the outbound path as one opaque segment: the
endpoint is the route prefix followed by `encodeURIComponent` of the
path, and that encoded form never contains a slash, so an embedded slash
(as in `folder/note`, encoded `folder%2Fnote`) does not split the
segment. -/
theorem vault_path_single_segment (p : String) :
    (∀ args : ToolArgs, args.path = some p →
       dispatchCall ("read_file") args =
         some { endpoint := "/files/" ++ encodeURIComponent p, method := Method.GET,
                queryParams := [], body := none } ∧
       dispatchCall ("delete_item") args =
         some { endpoint := "/files/" ++ encodeURIComponent p, method := Method.DELETE,
                queryParams := [], body := none } ∧
       dispatchCall ("get_note") args =
         some { endpoint := "/notes/" ++ encodeURIComponent p, method := Method.GET,
                queryParams := [], body := none }) ∧
    ('/') ∉ (encodeURIComponent p).data ∧
    encodeURIComponent ("folder/note") = "folder%2Fnote" := by
  refine ⟨?_, slash_not_mem_encodeURIComponent p, by decide⟩
  intro args hp
  refine ⟨?_, ?_, ?_⟩
  all_goals simp [dispatchCall, ObsidianApiClient.readFile, ObsidianApiClient.deleteItem,
    ObsidianApiClient.getNote, hp, jsString]

/-- C8: the legacy note create and update bodies carry only the fields
explicitly supplied: `updateNote` with only a path sends the empty body
object, and `createNote` without a frontmatter argument sends a body with
just `path` and `content` — no null-filling. -/
theorem legacy_note_bodies_omit_unsupplied (p : String) :
    ObsidianApiClient.updateNote (some p) none none =
      { endpoint := "/notes/" ++ encodeURIComponent p, method := Method.PATCH,
        queryParams := [], body := some (Json.obj []) } ∧
    ∀ c : String, ObsidianApiClient.createNote (some p) (some c) none =
      { endpoint := "/notes", method := Method.POST, queryParams := [],
        body := some (Json.obj [("path", Json.str p), ("content", Json.str c)]) } :=
  ⟨rfl, fun _ => rfl⟩

/-- C9: a `list_notes` call whose `search` argument is present but the
empty string falls through to the plain GET `/notes` listing — the
redirect is gated on string truthiness, and the empty string is falsy. -/
theorem list_notes_empty_search_falls_through (args : ToolArgs)
    (h : args.search = some ("")) :
    dispatchCall ("list_notes") args = some ObsidianApiClient.listNotes ∧
    ObsidianApiClient.listNotes =
      { endpoint := "/notes", method := Method.GET, queryParams := [], body := none } := by
  refine ⟨?_, rfl⟩
  simp [dispatchCall, h, jsTruthyStr]

/-- Witness for C9 at a concrete argument bag carrying `search: ""`. -/
theorem list_notes_empty_search_falls_through_witness :
    dispatchCall ("list_notes") { search := some ("") } = some ObsidianApiClient.listNotes ∧
    ObsidianApiClient.listNotes =
      { endpoint := "/notes", method := Method.GET, queryParams := [], body := none } :=
  list_notes_empty_search_falls_through { search := some ("") } rfl

/-- Whatever the response, `request` sends exactly the request built
from the stored base URL and the call's path. -/
theorem request_fst (st : ClientState) (c : ApiCall) (oracle : SentRequest → HttpResponse) :
    (ObsidianApiClient.request st c oracle).1 =
      { url := st.baseUrl ++ c.pathString, method := c.method,
        headers := st.headers, body := c.body } := by
  unfold ObsidianApiClient.request
  dsimp only
  split <;> rfl

/-- With a resolved tool, the handler's trace is exactly the one request
`request` sent. -/
theorem handleCallTool_trace (config : Config) (name : String) (args : ToolArgs)
    (oracle : SentRequest → HttpResponse) (c : ApiCall)
    (h : dispatchCall name args = some c) :
    (handleCallTool config name args oracle).2 =
      [(ObsidianApiClient.request (ObsidianApiClient.init config) c oracle).1] := by
  unfold handleCallTool
  rw [h]
  dsimp only
  split <;> rfl

/-- C10: every outbound request URL is the configured base URL, then the
fixed `/api` prefix appended once at client construction, then the
per-tool path: the constructor stores `baseUrl ++ "/api"`, and every
request the handler ever sends (for any tool, argument bag and network)
has a URL of exactly that shape. -/
theorem api_prefix_uniform (config : Config) (name : String) (args : ToolArgs)
    (oracle : SentRequest → HttpResponse) :
    (ObsidianApiClient.init config).baseUrl = config.baseUrl ++ "/api" ∧
    ∀ s ∈ (handleCallTool config name args oracle).2,
      ∃ c, dispatchCall name args = some c ∧
        s.url = (config.baseUrl ++ "/api") ++ c.pathString := by
  refine ⟨rfl, ?_⟩
  intro s hs
  cases hd : dispatchCall name args with
  | none =>
      rw [handleCallTool, hd] at hs
      simp at hs
  | some c =>
      refine ⟨c, rfl, ?_⟩
      rw [handleCallTool_trace config name args oracle c hd, List.mem_singleton] at hs
      subst hs
      rw [request_fst]
      rfl

theorem mk_data (s : String) : String.mk s.data = s := rfl

theorem skipWs_not_ws {c : Char} (h : isWs c = false) (cs : List Char) :
    skipWs (c :: cs) = c :: cs := by
  simp [skipWs, h]

theorem skipWs_ws_lead {w : List Char} (h : wsOnly w) (cs : List Char) :
    skipWs (w ++ cs) = skipWs cs := by
  induction w with
  | nil => rfl
  | cons c w ih =>
      have hc : isWs c = true := h c (List.mem_cons_self c w)
      have hw : wsOnly w := fun d hd => h d (List.mem_cons_of_mem c hd)
      simp [skipWs, hc, ih hw]

theorem wsOnly_spaces (n : Nat) : wsOnly (spacesChars n) := by
  intro c hc
  rw [List.eq_of_mem_replicate hc]
  rfl

theorem parseVal_ws_lead (fuel : Nat) {w : List Char} (h : wsOnly w) (cs : List Char) :
    parseVal fuel (w ++ cs) = parseVal fuel cs := by
  cases fuel with
  | zero => rfl
  | succ fuel => simp only [parseVal, skipWs_ws_lead h]

theorem expectChars_append (p r : List Char) : expectChars p (p ++ r) = some r := by
  induction p with
  | nil => rfl
  | cons c p ih => simp [expectChars, ih]

theorem char_ofNat_toNat {c : Char} (h : c.toNat < 55296) : Char.ofNat c.toNat = c := by
  have hv : Nat.isValidChar c.toNat := Or.inl h
  apply Char.ext
  apply UInt32.toNat.inj
  exact char_toNat_ofNat c.toNat h

theorem hexVal_hexLower {k : Nat} (h : k < 16) : hexVal (hexLower k) = some k := by
  interval_cases k <;> decide

theorem isDigitChar_digitChar {d : Nat} (h : d < 10) : isDigitChar (digitChar d) = true := by
  interval_cases d <;> decide

theorem isWs_digitChar {d : Nat} (h : d < 10) : isWs (digitChar d) = false := by
  interval_cases d <;> decide

theorem parseStr_escString (s : List Char) : ∀ r, parseStrChars (escString s ++ ('"' :: r)) = some (s, r) := by
  induction s with
  | nil =>
      intro r
      show parseStrChars ('"' :: r) = some ([], r)
      rw [parseStrChars.eq_def]
      simp
  | cons c cs ih =>
      intro r
      show parseStrChars ((escChar c ++ escString cs) ++ ('"' :: r)) = _
      rw [List.append_assoc]
      unfold escChar
      split_ifs with h1 h2 h3 h4 h5 h6 h7 h8
      · subst h1
        rw [parseStrChars.eq_def]
        simp [escDecode, ih r]
      · subst h2
        rw [parseStrChars.eq_def]
        simp [escDecode, ih r]
      · subst h3
        rw [parseStrChars.eq_def]
        simp [escDecode, ih r]
      · subst h4
        rw [parseStrChars.eq_def]
        simp [escDecode, ih r]
      · subst h5
        rw [parseStrChars.eq_def]
        simp [escDecode, ih r]
      · subst h6
        rw [parseStrChars.eq_def]
        simp [escDecode, ih r]
      · subst h7
        rw [parseStrChars.eq_def]
        simp [escDecode, ih r]
      · rw [parseStrChars.eq_def]
        have hd3 : c.toNat / 16 < 16 := by omega
        have hd4 : c.toNat % 16 < 16 := by omega
        have h0 : hexVal ('0') = some 0 := by decide
        simp [h0, hexVal_hexLower hd3, hexVal_hexLower hd4, ih r]
        have harith : c.toNat / 16 * 16 + c.toNat % 16 = c.toNat := by omega
        rw [harith]
        exact char_ofNat_toNat (by omega)
      · rw [parseStrChars.eq_def]
        simp [h1, h2, ih r]

theorem digitVal_digitChar {d : Nat} (h : d < 10) : digitVal (digitChar d) = d := by
  have : (digitChar d).toNat = 48 + d := char_toNat_ofNat (48 + d) (by omega)
  simp [digitVal, this]

theorem takeDigits_append {ds rest : List Char} (hd : ∀ c ∈ ds, isDigitChar c = true)
    (hr : headSafe rest) : takeDigits (ds ++ rest) = (ds, rest) := by
  induction ds with
  | nil =>
      cases rest with
      | nil => rfl
      | cons c cs =>
          have : isDigitChar c = false := hr
          simp [takeDigits, this]
  | cons d ds ih =>
      have h1 : isDigitChar d = true := hd d (List.mem_cons_self d ds)
      have h2 : ∀ c ∈ ds, isDigitChar c = true := fun c hc => hd c (List.mem_cons_of_mem d hc)
      simp [takeDigits, h1, ih h2]

theorem natChars_digits (n : Nat) : ∀ c ∈ natChars n, isDigitChar c = true := by
  induction n using Nat.strong_induction_on with
  | _ n ih =>
      rw [natChars.eq_def]
      split_ifs with h
      · intro c hc
        simp only [List.mem_singleton] at hc
        subst hc
        exact isDigitChar_digitChar h
      · intro c hc
        rw [List.mem_append] at hc
        rcases hc with hc | hc
        · exact ih (n / 10) (Nat.div_lt_self (by omega) (by omega)) c hc
        · simp only [List.mem_singleton] at hc
          subst hc
          exact isDigitChar_digitChar (Nat.mod_lt n (by omega))

theorem natChars_ne_nil (n : Nat) : natChars n ≠ [] := by
  rw [natChars.eq_def]
  split_ifs with h <;> simp

theorem digitsToNat_append (acc : Nat) (xs ys : List Char) :
    digitsToNat acc (xs ++ ys) = digitsToNat (digitsToNat acc xs) ys := by
  induction xs generalizing acc with
  | nil => rfl
  | cons c cs ih =>
      rw [List.cons_append]
      show digitsToNat (acc * 10 + digitVal c) (cs ++ ys) =
        digitsToNat (digitsToNat (acc * 10 + digitVal c) cs) ys
      exact ih (acc * 10 + digitVal c)

theorem digitsToNat_natChars (n : Nat) : ∀ acc,
    digitsToNat acc (natChars n) = acc * 10 ^ (natChars n).length + n := by
  induction n using Nat.strong_induction_on with
  | _ n ih =>
      intro acc
      rw [natChars.eq_def]
      split_ifs with h
      · rw [show digitsToNat acc [digitChar n] = acc * 10 + digitVal (digitChar n) from rfl,
           digitVal_digitChar h, List.length_singleton, pow_one]
      · rw [digitsToNat_append, ih (n / 10) (Nat.div_lt_self (by omega) (by omega)) acc]
        have hm : n % 10 < 10 := Nat.mod_lt n (by omega)
        rw [show digitsToNat (acc * 10 ^ (natChars (n / 10)).length + n / 10)
              [digitChar (n % 10)] =
            (acc * 10 ^ (natChars (n / 10)).length + n / 10) * 10 +
              digitVal (digitChar (n % 10)) from rfl]
        rw [digitVal_digitChar hm, List.length_append, List.length_singleton, pow_succ]
        have hdm : n / 10 * 10 + n % 10 = n := by omega
        calc (acc * 10 ^ (natChars (n / 10)).length + n / 10) * 10 + n % 10
            = acc * (10 ^ (natChars (n / 10)).length * 10) + (n / 10 * 10 + n % 10) := by ring
          _ = acc * (10 ^ (natChars (n / 10)).length * 10) + n := by rw [hdm]

theorem digit_facts {c : Char} (h : isDigitChar c = true) :
    isWs c = false ∧ c ≠ 'n' ∧ c ≠ 't' ∧ c ≠ 'f' ∧ c ≠ '"' ∧ c ≠ '[' ∧ c ≠ '\x7b' ∧
      c ≠ '-' ∧ c ≠ ']' ∧ c ≠ '\x7d' ∧ c ≠ ',' ∧ c ≠ ':' := by
  have hc : 48 ≤ c.toNat ∧ c.toNat ≤ 57 := by simpa [isDigitChar] using h
  refine ⟨?_, ?_, ?_, ?_, ?_, ?_, ?_, ?_, ?_, ?_, ?_, ?_⟩
  · cases hw : isWs c with
    | false => rfl
    | true =>
        have := hw
        simp only [isWs, decide_eq_true_eq] at this
        rcases this with h1 | h1 | h1 | h1 <;> (subst h1; exact absurd hc (by decide))
  all_goals (intro he; subst he; exact absurd hc (by decide))

theorem parseNum_intChars (n : Int) {rest : List Char} (hr : headSafe rest) :
    parseNum (intChars n ++ rest) = some (Json.num n, rest) := by
  obtain ⟨c0, t, hnc⟩ : ∃ c0 t, natChars (if n < 0 then n.natAbs else n.toNat) = c0 :: t := by
    cases h : natChars (if n < 0 then n.natAbs else n.toNat) with
    | nil => exact absurd h (natChars_ne_nil _)
    | cons a b => exact ⟨a, b, rfl⟩
  unfold intChars
  split_ifs with hneg
  · rw [if_pos hneg] at hnc
    have hds : takeDigits (natChars n.natAbs ++ rest) = (natChars n.natAbs, rest) :=
      takeDigits_append (natChars_digits n.natAbs) hr
    show parseNum ('-' :: (natChars n.natAbs ++ rest)) = some (Json.num n, rest)
    unfold parseNum
    dsimp only
    rw [if_pos rfl, hds, hnc]
    show some (Json.num (-(Int.ofNat (digitsToNat 0 (c0 :: t)))), rest) = _
    rw [← hnc, digitsToNat_natChars n.natAbs 0]
    have : -(Int.ofNat (0 * 10 ^ (natChars n.natAbs).length + n.natAbs)) = n := by
      simp only [Nat.zero_mul, Nat.zero_add, Int.ofNat_eq_coe]
      omega
    rw [this]
  · rw [if_neg hneg] at hnc
    have hdig : isDigitChar c0 = true :=
      natChars_digits n.toNat c0 (by rw [hnc]; exact List.mem_cons_self c0 t)
    have hfacts := digit_facts hdig
    have hds : takeDigits (natChars n.toNat ++ rest) = (natChars n.toNat, rest) :=
      takeDigits_append (natChars_digits n.toNat) hr
    rw [hnc, List.cons_append]
    unfold parseNum
    dsimp only
    rw [if_neg hfacts.2.2.2.2.2.2.2.1, ← List.cons_append, ← hnc, hds, hnc]
    show some (Json.num (Int.ofNat (digitsToNat 0 (c0 :: t))), rest) = _
    rw [← hnc, digitsToNat_natChars n.toNat 0]
    have : Int.ofNat (0 * 10 ^ (natChars n.toNat).length + n.toNat) = n := by
      simp only [Nat.zero_mul, Nat.zero_add, Int.ofNat_eq_coe]
      omega
    rw [this]

theorem renderVal_null (ind : Nat) : renderVal ind Json.null = ['n', 'u', 'l', 'l'] := by
  rw [renderVal.eq_def]

theorem renderVal_true (ind : Nat) : renderVal ind (Json.bool true) = ['t', 'r', 'u', 'e'] := by
  rw [renderVal.eq_def]

theorem renderVal_false (ind : Nat) : renderVal ind (Json.bool false) = ['f', 'a', 'l', 's', 'e'] := by
  rw [renderVal.eq_def]

theorem renderVal_num (ind : Nat) (n : Int) : renderVal ind (Json.num n) = intChars n := by
  rw [renderVal.eq_def]

theorem renderVal_str (ind : Nat) (s : String) : renderVal ind (Json.str s) = quoteChars s := by
  rw [renderVal.eq_def]

theorem renderVal_arr_nil (ind : Nat) : renderVal ind (Json.arr []) = ['[', ']'] := by
  rw [renderVal.eq_def]

theorem renderVal_arr_cons (ind : Nat) (x : Json) (xs : List Json) :
    renderVal ind (Json.arr (x :: xs)) =
      '[' :: '\n' :: (renderElems (ind + 2) x xs ++ '\n' :: (spacesChars ind ++ [']'])) := by
  rw [renderVal.eq_def]

theorem renderVal_obj_nil (ind : Nat) : renderVal ind (Json.obj []) = ['\x7b', '\x7d'] := by
  rw [renderVal.eq_def]

theorem renderVal_obj_cons (ind : Nat) (f : String × Json) (fs : List (String × Json)) :
    renderVal ind (Json.obj (f :: fs)) =
      '\x7b' :: '\n' :: (renderFields (ind + 2) f fs ++ '\n' :: (spacesChars ind ++ ['\x7d'])) := by
  rw [renderVal.eq_def]

theorem renderElems_eq (ind : Nat) (x : Json) (xs : List Json) :
    renderElems ind x xs = spacesChars ind ++ renderVal ind x ++ renderElemsTail ind xs := by
  rw [renderElems.eq_def]

theorem renderElemsTail_nil (ind : Nat) : renderElemsTail ind [] = [] := by
  rw [renderElemsTail.eq_def]

theorem renderElemsTail_cons (ind : Nat) (y : Json) (ys : List Json) :
    renderElemsTail ind (y :: ys) = ',' :: '\n' :: renderElems ind y ys := by
  rw [renderElemsTail.eq_def]

theorem renderFields_eq (ind : Nat) (f : String × Json) (fs : List (String × Json)) :
    renderFields ind f fs =
      spacesChars ind ++ quoteChars f.1 ++ (':' :: ' ' :: renderVal ind f.2) ++
        renderFieldsTail ind fs := by
  rw [renderFields.eq_def]

theorem renderFieldsTail_nil (ind : Nat) : renderFieldsTail ind [] = [] := by
  rw [renderFieldsTail.eq_def]

theorem renderFieldsTail_cons (ind : Nat) (g : String × Json) (gs : List (String × Json)) :
    renderFieldsTail ind (g :: gs) = ',' :: '\n' :: renderFields ind g gs := by
  rw [renderFieldsTail.eq_def]

theorem nodesJson_pos (v : Json) : 1 ≤ nodesJson v := by
  rw [nodesJson.eq_def]
  cases v <;> (dsimp only; omega)

theorem ws_not_digit {c : Char} (h : isWs c = true) : isDigitChar c = false := by
  simp only [isWs, decide_eq_true_eq] at h
  rcases h with h | h | h | h <;> (subst h; decide)

theorem headSafe_of_skipWs {cs r : List Char} {d : Char} (h : skipWs cs = d :: r)
    (hd : isDigitChar d = false) : headSafe cs := by
  cases cs with
  | nil => exact absurd h (by simp [skipWs])
  | cons c cs =>
      show isDigitChar c = false
      by_cases hw : isWs c = true
      · exact ws_not_digit hw
      · have hw2 : isWs c = false := by
          cases hb : isWs c
          · rfl
          · exact absurd hb hw
        rw [skipWs_not_ws hw2] at h
        injection h with h1 h2
        rw [h1]
        exact hd

theorem nodesJson_arr (xs : List Json) : nodesJson (Json.arr xs) = 1 + nodesList xs := by
  rw [nodesJson.eq_def]

theorem nodesJson_obj (fs : List (String × Json)) :
    nodesJson (Json.obj fs) = 1 + nodesFields fs := by
  rw [nodesJson.eq_def]

theorem nodesList_cons (x : Json) (xs : List Json) :
    nodesList (x :: xs) = nodesJson x + 1 + nodesList xs := by
  rw [nodesList.eq_def]

theorem nodesFields_cons (f : String × Json) (fs : List (String × Json)) :
    nodesFields (f :: fs) = nodesJson f.2 + 1 + nodesFields fs := by
  rw [nodesFields.eq_def]

theorem nodesList_nil : nodesList [] = 0 := by
  rw [nodesList.eq_def]

theorem nodesFields_nil : nodesFields [] = 0 := by
  rw [nodesFields.eq_def]

theorem nodesList_pos (x : Json) (xs : List Json) : 1 ≤ nodesList (x :: xs) := by
  rw [nodesList_cons]
  omega

theorem nodesFields_pos (f : String × Json) (fs : List (String × Json)) :
    1 ≤ nodesFields (f :: fs) := by
  rw [nodesFields_cons]
  omega

theorem wsOnly_nl_spaces (ind : Nat) : wsOnly ('\n' :: spacesChars ind) := by
  intro c hc
  rcases List.mem_cons.mp hc with h | h
  · subst h; rfl
  · exact wsOnly_spaces ind c h

theorem wsOnly_nil : wsOnly ([] : List Char) := by
  intro c hc
  exact absurd hc (List.not_mem_nil c)

theorem wsOnly_single_space : wsOnly [' '] := by
  intro c hc
  simp only [List.mem_singleton] at hc
  subst hc
  rfl

theorem renderVal_head (ind : Nat) (v : Json) :
    ∃ c t, renderVal ind v = c :: t ∧ isWs c = false ∧ c ≠ ']' ∧ c ≠ '\x7d' := by
  cases v with
  | null => exact ⟨'n', _, renderVal_null ind, by decide, by decide, by decide⟩
  | bool b =>
      cases b with
      | true => exact ⟨'t', _, renderVal_true ind, by decide, by decide, by decide⟩
      | false => exact ⟨'f', _, renderVal_false ind, by decide, by decide, by decide⟩
  | num n =>
      rw [renderVal_num]
      unfold intChars
      split_ifs with hneg
      · exact ⟨'-', _, rfl, by decide, by decide, by decide⟩
      · obtain ⟨c0, t, hnc⟩ : ∃ c0 t, natChars n.toNat = c0 :: t := by
          cases h : natChars n.toNat with
          | nil => exact absurd h (natChars_ne_nil _)
          | cons a b => exact ⟨a, b, rfl⟩
        have hdig : isDigitChar c0 = true :=
          natChars_digits n.toNat c0 (by rw [hnc]; exact List.mem_cons_self c0 t)
        have hf := digit_facts hdig
        exact ⟨c0, t, hnc, hf.1, hf.2.2.2.2.2.2.2.2.1, hf.2.2.2.2.2.2.2.2.2.1⟩
  | str s => exact ⟨'"', _, renderVal_str ind s, by decide, by decide, by decide⟩
  | arr xs =>
      cases xs with
      | nil => exact ⟨'[', _, renderVal_arr_nil ind, by decide, by decide, by decide⟩
      | cons x xs => exact ⟨'[', _, renderVal_arr_cons ind x xs, by decide, by decide, by decide⟩
  | obj fs =>
      cases fs with
      | nil => exact ⟨'\x7b', _, renderVal_obj_nil ind, by decide, by decide, by decide⟩
      | cons f fs => exact ⟨'\x7b', _, renderVal_obj_cons ind f fs, by decide, by decide, by decide⟩

theorem parseVal_step (fuel : Nat) {cs : List Char} {c : Char} {cs1 : List Char}
    (h : skipWs cs = c :: cs1) :
    parseVal (fuel + 1) cs =
      (if c = 'n' then (expectChars (['u', 'l', 'l']) cs1).map (fun r => (Json.null, r))
       else if c = 't' then (expectChars (['r', 'u', 'e']) cs1).map (fun r => (Json.bool true, r))
       else if c = 'f' then (expectChars (['a', 'l', 's', 'e']) cs1).map (fun r => (Json.bool false, r))
       else if c = '"' then (parseStrChars cs1).map (fun p => (Json.str (String.mk p.1), p.2))
       else if c = '[' then
         (match skipWs cs1 with
          | [] => (parseElems fuel []).map (fun p => (Json.arr p.1, p.2))
          | d :: r =>
              if d = ']' then some (Json.arr [], r)
              else (parseElems fuel (d :: r)).map (fun p => (Json.arr p.1, p.2)))
       else if c = '\x7b' then
         (match skipWs cs1 with
          | [] => (parseFields fuel []).map (fun p => (Json.obj p.1, p.2))
          | d :: r =>
              if d = '\x7d' then some (Json.obj [], r)
              else (parseFields fuel (d :: r)).map (fun p => (Json.obj p.1, p.2)))
       else if c = '-' ∨ isDigitChar c then parseNum (c :: cs1)
       else none) := by
  simp only [parseVal, h]

theorem parseElems_step (fuel : Nat) (cs : List Char) :
    parseElems (fuel + 1) cs =
      (match parseVal fuel cs with
       | none => none
       | some (v, rest) =>
         match skipWs rest with
         | [] => none
         | d :: r =>
             if d = ',' then (parseElems fuel r).map (fun p => (v :: p.1, p.2))
             else if d = ']' then some ([v], r)
             else none) := by
  simp only [parseElems]

theorem parseFields_step (fuel : Nat) (cs : List Char) :
    parseFields (fuel + 1) cs =
      (match skipWs cs with
       | [] => none
       | c :: cs1 =>
         if c = '"' then
           (match parseStrChars cs1 with
            | none => none
            | some (k, rest) =>
              match skipWs rest with
              | [] => none
              | d :: cs2 =>
                if d = ':' then
                  (match parseVal fuel cs2 with
                   | none => none
                   | some (v, rest2) =>
                     match skipWs rest2 with
                     | [] => none
                     | e :: r =>
                         if e = ',' then
                           (parseFields fuel r).map (fun p => ((String.mk k, v) :: p.1, p.2))
                         else if e = '\x7d' then some ([(String.mk k, v)], r)
                         else none)
                else none)
         else none) := by
  simp only [parseFields]

set_option maxHeartbeats 1000000 in
theorem parse_render_main : ∀ fuel : Nat,
    (∀ v ind w rest, wsOnly w → nodesJson v ≤ fuel → headSafe rest →
       parseVal fuel (w ++ (renderVal ind v ++ rest)) = some (v, rest)) ∧
    (∀ x xs ind w clo rest, wsOnly w → nodesList (x :: xs) ≤ fuel → headSafe rest →
       skipWs clo = ']' :: rest →
       parseElems fuel (w ++ (renderVal ind x ++ (renderElemsTail ind xs ++ clo))) =
         some (x :: xs, rest)) ∧
    (∀ f fs ind w clo rest, wsOnly w → nodesFields (f :: fs) ≤ fuel → headSafe rest →
       skipWs clo = '\x7d' :: rest →
       parseFields fuel (w ++ (quoteChars f.1 ++
         (':' :: ' ' :: (renderVal ind f.2 ++ (renderFieldsTail ind fs ++ clo))))) =
         some (f :: fs, rest)) := by
  intro fuel
  induction fuel with
  | zero =>
      refine ⟨?_, ?_, ?_⟩
      · intro v ind w rest hw hn hr
        exact absurd hn (by have := nodesJson_pos v; omega)
      · intro x xs ind w clo rest hw hn hr hclo
        exact absurd hn (by have := nodesList_pos x xs; omega)
      · intro f fs ind w clo rest hw hn hr hclo
        exact absurd hn (by have := nodesFields_pos f fs; omega)
  | succ fuel ih =>
      obtain ⟨ihP, ihQ, ihR⟩ := ih
      refine ⟨?_, ?_, ?_⟩
      · -- parseVal on a rendered value
        intro v ind w rest hw hn hr
        rw [parseVal_ws_lead (fuel + 1) hw]
        cases v with
        | null =>
            rw [renderVal_null,
              show (['n', 'u', 'l', 'l'] : List Char) ++ rest = 'n' :: (['u', 'l', 'l'] ++ rest) from rfl,
              parseVal_step fuel (@skipWs_not_ws 'n' (by decide) (['u', 'l', 'l'] ++ rest))]
            rw [if_pos rfl, expectChars_append]
            rfl
        | bool b =>
            cases b with
            | true =>
                rw [renderVal_true,
                  show (['t', 'r', 'u', 'e'] : List Char) ++ rest = 't' :: (['r', 'u', 'e'] ++ rest) from rfl,
                  parseVal_step fuel (@skipWs_not_ws 't' (by decide) (['r', 'u', 'e'] ++ rest))]
                rw [if_neg (by decide), if_pos rfl, expectChars_append]
                rfl
            | false =>
                rw [renderVal_false,
                  show (['f', 'a', 'l', 's', 'e'] : List Char) ++ rest = 'f' :: (['a', 'l', 's', 'e'] ++ rest) from rfl,
                  parseVal_step fuel (@skipWs_not_ws 'f' (by decide) (['a', 'l', 's', 'e'] ++ rest))]
                rw [if_neg (by decide), if_neg (by decide), if_pos rfl, expectChars_append]
                rfl
        | str s =>
            have hshape : renderVal ind (Json.str s) ++ rest =
                '"' :: (escString s.data ++ ('"' :: rest)) := by
              rw [renderVal_str]
              simp [quoteChars, List.append_assoc]
            rw [hshape]
            rw [parseVal_step fuel (@skipWs_not_ws '"' (by decide) (escString s.data ++ ('"' :: rest)))]
            rw [if_neg (by decide), if_neg (by decide), if_neg (by decide), if_pos rfl]
            rw [parseStr_escString s.data rest]
            simp only [Option.map_some']
        | num n =>
            rw [renderVal_num]
            have hpn := parseNum_intChars n hr
            by_cases hneg : n < 0
            · have hshape : intChars n ++ rest = '-' :: (natChars n.natAbs ++ rest) := by
                unfold intChars
                rw [if_pos hneg, List.cons_append]
              rw [hshape]
              rw [parseVal_step fuel (@skipWs_not_ws '-' (by decide) (natChars n.natAbs ++ rest))]
              rw [if_neg (by decide), if_neg (by decide), if_neg (by decide), if_neg (by decide),
                  if_neg (by decide), if_neg (by decide), if_pos (Or.inl rfl)]
              rw [hshape] at hpn
              exact hpn
            · obtain ⟨c0, t0, hnc⟩ : ∃ c0 t0, natChars n.toNat = c0 :: t0 := by
                cases h : natChars n.toNat with
                | nil => exact absurd h (natChars_ne_nil _)
                | cons a b => exact ⟨a, b, rfl⟩
              have hdig : isDigitChar c0 = true :=
                natChars_digits n.toNat c0 (by rw [hnc]; exact List.mem_cons_self c0 t0)
              have hf := digit_facts hdig
              have hshape : intChars n ++ rest = c0 :: (t0 ++ rest) := by
                unfold intChars
                rw [if_neg hneg, hnc, List.cons_append]
              rw [hshape]
              rw [parseVal_step fuel (skipWs_not_ws hf.1 (t0 ++ rest))]
              rw [if_neg hf.2.1, if_neg hf.2.2.1, if_neg hf.2.2.2.1, if_neg hf.2.2.2.2.1,
                  if_neg hf.2.2.2.2.2.1, if_neg hf.2.2.2.2.2.2.1, if_pos (Or.inr hdig)]
              rw [hshape] at hpn
              exact hpn
        | arr xs =>
            cases xs with
            | nil =>
                rw [renderVal_arr_nil,
                  show (['[', ']'] : List Char) ++ rest = '[' :: (']' :: rest) from rfl,
                  parseVal_step fuel (@skipWs_not_ws '[' (by decide) (']' :: rest))]
                rw [if_neg (by decide), if_neg (by decide), if_neg (by decide),
                    if_neg (by decide), if_pos rfl]
                rw [@skipWs_not_ws ']' (by decide) rest]
                dsimp only
                rw [if_pos rfl]
            | cons x xs =>
                have hshape : renderVal ind (Json.arr (x :: xs)) ++ rest =
                    '[' :: (('\n' :: spacesChars (ind + 2)) ++
                      (renderVal (ind + 2) x ++ (renderElemsTail (ind + 2) xs ++
                        ('\n' :: (spacesChars ind ++ (']' :: rest)))))) := by
                  rw [renderVal_arr_cons, renderElems_eq]
                  simp [List.append_assoc]
                rw [hshape]
                rw [parseVal_step fuel (@skipWs_not_ws '[' (by decide) _)]
                rw [if_neg (by decide), if_neg (by decide), if_neg (by decide),
                    if_neg (by decide), if_pos rfl]
                obtain ⟨c0, t0, hh, hws0, hne1, hne2⟩ := renderVal_head (ind + 2) x
                have hsk2 : skipWs (('\n' :: spacesChars (ind + 2)) ++
                    (renderVal (ind + 2) x ++ (renderElemsTail (ind + 2) xs ++
                      ('\n' :: (spacesChars ind ++ (']' :: rest)))))) =
                    c0 :: (t0 ++ (renderElemsTail (ind + 2) xs ++
                      ('\n' :: (spacesChars ind ++ (']' :: rest))))) := by
                  rw [skipWs_ws_lead (wsOnly_nl_spaces (ind + 2)), hh, List.cons_append,
                      skipWs_not_ws hws0]
                rw [hsk2]
                dsimp only
                rw [if_neg hne1]
                have harg : c0 :: (t0 ++ (renderElemsTail (ind + 2) xs ++
                    ('\n' :: (spacesChars ind ++ (']' :: rest))))) =
                    [] ++ (renderVal (ind + 2) x ++ (renderElemsTail (ind + 2) xs ++
                      ('\n' :: (spacesChars ind ++ (']' :: rest))))) := by
                  rw [List.nil_append, hh, List.cons_append]
                rw [harg]
                have hclo2 : skipWs ('\n' :: (spacesChars ind ++ (']' :: rest))) = ']' :: rest := by
                  rw [show ('\n' :: (spacesChars ind ++ (']' :: rest)) : List Char) =
                      ('\n' :: spacesChars ind) ++ (']' :: rest) from rfl,
                    skipWs_ws_lead (wsOnly_nl_spaces ind),
                    @skipWs_not_ws ']' (by decide) rest]
                have hbudget : nodesList (x :: xs) ≤ fuel := by
                  rw [nodesJson_arr] at hn
                  omega
                rw [ihQ x xs (ind + 2) [] ('\n' :: (spacesChars ind ++ (']' :: rest))) rest
                  wsOnly_nil hbudget hr hclo2]
                rfl
        | obj fs =>
            cases fs with
            | nil =>
                rw [renderVal_obj_nil,
                  show (['\x7b', '\x7d'] : List Char) ++ rest = '\x7b' :: ('\x7d' :: rest) from rfl,
                  parseVal_step fuel (@skipWs_not_ws '\x7b' (by decide) ('\x7d' :: rest))]
                rw [if_neg (by decide), if_neg (by decide), if_neg (by decide),
                    if_neg (by decide), if_neg (by decide), if_pos rfl]
                rw [@skipWs_not_ws '\x7d' (by decide) rest]
                dsimp only
                rw [if_pos rfl]
            | cons f fs =>
                have hshape : renderVal ind (Json.obj (f :: fs)) ++ rest =
                    '\x7b' :: (('\n' :: spacesChars (ind + 2)) ++
                      (quoteChars f.1 ++ (':' :: ' ' :: (renderVal (ind + 2) f.2 ++
                        (renderFieldsTail (ind + 2) fs ++
                          ('\n' :: (spacesChars ind ++ ('\x7d' :: rest)))))))) := by
                  rw [renderVal_obj_cons, renderFields_eq]
                  simp [List.append_assoc]
                rw [hshape]
                rw [parseVal_step fuel (@skipWs_not_ws '\x7b' (by decide) _)]
                rw [if_neg (by decide), if_neg (by decide), if_neg (by decide),
                    if_neg (by decide), if_neg (by decide), if_pos rfl]
                have hsk2 : skipWs (('\n' :: spacesChars (ind + 2)) ++
                    (quoteChars f.1 ++ (':' :: ' ' :: (renderVal (ind + 2) f.2 ++
                      (renderFieldsTail (ind + 2) fs ++
                        ('\n' :: (spacesChars ind ++ ('\x7d' :: rest)))))))) =
                    '"' :: (escString f.1.data ++ ('"' :: (':' :: ' ' :: (renderVal (ind + 2) f.2 ++
                      (renderFieldsTail (ind + 2) fs ++
                        ('\n' :: (spacesChars ind ++ ('\x7d' :: rest)))))))) := by
                  rw [skipWs_ws_lead (wsOnly_nl_spaces (ind + 2))]
                  rw [show quoteChars f.1 ++ (':' :: ' ' :: (renderVal (ind + 2) f.2 ++
                        (renderFieldsTail (ind + 2) fs ++
                          ('\n' :: (spacesChars ind ++ ('\x7d' :: rest)))))) =
                      '"' :: (escString f.1.data ++ ('"' :: (':' :: ' ' :: (renderVal (ind + 2) f.2 ++
                        (renderFieldsTail (ind + 2) fs ++
                          ('\n' :: (spacesChars ind ++ ('\x7d' :: rest)))))))) from by
                    simp [quoteChars, List.append_assoc]]
                  exact @skipWs_not_ws '"' (by decide) _
                rw [hsk2]
                dsimp only
                rw [if_neg (by decide)]
                have harg : ('"' :: (escString f.1.data ++ ('"' :: (':' :: ' ' :: (renderVal (ind + 2) f.2 ++
                    (renderFieldsTail (ind + 2) fs ++
                      ('\n' :: (spacesChars ind ++ ('\x7d' :: rest)))))))) : List Char) =
                    [] ++ (quoteChars f.1 ++ (':' :: ' ' :: (renderVal (ind + 2) f.2 ++
                      (renderFieldsTail (ind + 2) fs ++
                        ('\n' :: (spacesChars ind ++ ('\x7d' :: rest))))))) := by
                  simp [quoteChars, List.append_assoc]
                rw [harg]
                have hclo2 : skipWs ('\n' :: (spacesChars ind ++ ('\x7d' :: rest))) =
                    '\x7d' :: rest := by
                  rw [show ('\n' :: (spacesChars ind ++ ('\x7d' :: rest)) : List Char) =
                      ('\n' :: spacesChars ind) ++ ('\x7d' :: rest) from rfl,
                    skipWs_ws_lead (wsOnly_nl_spaces ind),
                    @skipWs_not_ws '\x7d' (by decide) rest]
                have hbudget : nodesFields (f :: fs) ≤ fuel := by
                  rw [nodesJson_obj] at hn
                  omega
                rw [ihR f fs (ind + 2) [] ('\n' :: (spacesChars ind ++ ('\x7d' :: rest))) rest
                  wsOnly_nil hbudget hr hclo2]
                rfl
      · -- parseElems on rendered elements
        intro x xs ind w clo rest hw hn hr hclo
        rw [parseElems_step]
        have hrest2 : headSafe (renderElemsTail ind xs ++ clo) := by
          cases xs with
          | nil =>
              rw [renderElemsTail_nil, List.nil_append]
              exact headSafe_of_skipWs hclo (by decide)
          | cons y ys =>
              rw [renderElemsTail_cons, List.cons_append]
              show isDigitChar (',') = false
              decide
        have hbx : nodesJson x ≤ fuel := by
          rw [nodesList_cons] at hn
          omega
        rw [ihP x ind w (renderElemsTail ind xs ++ clo) hw hbx hrest2]
        dsimp only
        cases xs with
        | nil =>
            rw [renderElemsTail_nil, List.nil_append, hclo]
            dsimp only
            rw [if_neg (by decide), if_pos rfl]
        | cons y ys =>
            rw [renderElemsTail_cons,
              show (',' :: '\n' :: renderElems ind y ys) ++ clo =
                ',' :: ('\n' :: (renderElems ind y ys ++ clo)) from rfl,
              @skipWs_not_ws ',' (by decide) _]
            dsimp only
            rw [if_pos rfl]
            have harg : '\n' :: (renderElems ind y ys ++ clo) =
                ('\n' :: spacesChars ind) ++ (renderVal ind y ++ (renderElemsTail ind ys ++ clo)) := by
              rw [renderElems_eq]
              simp [List.append_assoc]
            rw [harg]
            have hby : nodesList (y :: ys) ≤ fuel := by
              rw [nodesList_cons] at hn
              have := nodesJson_pos x
              omega
            rw [ihQ y ys ind ('\n' :: spacesChars ind) clo rest (wsOnly_nl_spaces ind) hby hr hclo]
            rfl
      · -- parseFields on rendered members
        intro f fs ind w clo rest hw hn hr hclo
        rw [parseFields_step]
        have hsk : skipWs (w ++ (quoteChars f.1 ++
            (':' :: ' ' :: (renderVal ind f.2 ++ (renderFieldsTail ind fs ++ clo))))) =
            '"' :: (escString f.1.data ++ ('"' :: (':' :: ' ' ::
              (renderVal ind f.2 ++ (renderFieldsTail ind fs ++ clo))))) := by
          rw [skipWs_ws_lead hw,
            show quoteChars f.1 ++
                (':' :: ' ' :: (renderVal ind f.2 ++ (renderFieldsTail ind fs ++ clo))) =
              '"' :: (escString f.1.data ++ ('"' :: (':' :: ' ' ::
                (renderVal ind f.2 ++ (renderFieldsTail ind fs ++ clo))))) from by
              simp [quoteChars, List.append_assoc],
            @skipWs_not_ws '"' (by decide) _]
        rw [hsk]
        dsimp only
        rw [if_pos rfl, parseStr_escString f.1.data]
        dsimp only
        rw [@skipWs_not_ws ':' (by decide) _]
        dsimp only
        rw [if_pos rfl]
        have hrest2 : headSafe (renderFieldsTail ind fs ++ clo) := by
          cases fs with
          | nil =>
              rw [renderFieldsTail_nil, List.nil_append]
              exact headSafe_of_skipWs hclo (by decide)
          | cons g gs =>
              rw [renderFieldsTail_cons, List.cons_append]
              show isDigitChar (',') = false
              decide
        have hbf2 : nodesJson f.2 ≤ fuel := by
          rw [nodesFields_cons] at hn
          omega
        rw [show (' ' :: (renderVal ind f.2 ++ (renderFieldsTail ind fs ++ clo)) : List Char) =
            [' '] ++ (renderVal ind f.2 ++ (renderFieldsTail ind fs ++ clo)) from rfl,
          ihP f.2 ind [' '] (renderFieldsTail ind fs ++ clo) wsOnly_single_space hbf2 hrest2]
        dsimp only
        cases fs with
        | nil =>
            rw [renderFieldsTail_nil, List.nil_append, hclo]
            dsimp only
            rw [if_neg (by decide), if_pos rfl, mk_data]
        | cons g gs =>
            rw [renderFieldsTail_cons,
              show (',' :: '\n' :: renderFields ind g gs) ++ clo =
                ',' :: ('\n' :: (renderFields ind g gs ++ clo)) from rfl,
              @skipWs_not_ws ',' (by decide) _]
            dsimp only
            rw [if_pos rfl]
            have harg : '\n' :: (renderFields ind g gs ++ clo) =
                ('\n' :: spacesChars ind) ++ (quoteChars g.1 ++ (':' :: ' ' ::
                  (renderVal ind g.2 ++ (renderFieldsTail ind gs ++ clo)))) := by
              rw [renderFields_eq]
              simp [List.append_assoc]
            rw [harg]
            have hbg : nodesFields (g :: gs) ≤ fuel := by
              rw [nodesFields_cons] at hn
              have := nodesJson_pos f.2
              omega
            rw [ihR g gs ind ('\n' :: spacesChars ind) clo rest (wsOnly_nl_spaces ind) hbg hr hclo]
            rw [mk_data]
            rfl

theorem len_bound : ∀ n : Nat,
    (∀ v ind, sizeOf v ≤ n → nodesJson v ≤ (renderVal ind v).length) ∧
    (∀ x xs ind, sizeOf x + sizeOf xs ≤ n →
       nodesList (x :: xs) ≤ (renderElems ind x xs).length + 1) ∧
    (∀ f fs ind, sizeOf f.2 + sizeOf fs ≤ n →
       nodesFields (f :: fs) ≤ (renderFields ind f fs).length + 1) := by
  intro n
  induction n using Nat.strong_induction_on with
  | _ n ih =>
      refine ⟨?_, ?_, ?_⟩
      · intro v ind hs
        cases v with
        | null => rw [renderVal_null, nodesJson.eq_def]; dsimp only; simp
        | bool b =>
            cases b <;> rw [nodesJson.eq_def] <;>
              first
                | (rw [renderVal_true]; dsimp only; simp)
                | (rw [renderVal_false]; dsimp only; simp)
        | num m =>
            rw [renderVal_num, nodesJson.eq_def]
            dsimp only
            unfold intChars
            split_ifs with hneg
            · simp
            · have := List.length_pos.mpr (natChars_ne_nil m.toNat)
              omega
        | str s =>
            rw [renderVal_str, nodesJson.eq_def]
            dsimp only
            simp [quoteChars]
        | arr xs =>
            cases xs with
            | nil =>
                rw [renderVal_arr_nil, nodesJson.eq_def]
                dsimp only
                rw [nodesList_nil]
                simp
            | cons x xs =>
                have hlt : sizeOf x + sizeOf xs < n := by
                  have : sizeOf (Json.arr (x :: xs)) = 1 + (1 + sizeOf x + sizeOf xs) := by
                    simp
                  omega
                have h2 := (ih (sizeOf x + sizeOf xs) hlt).2.1 x xs (ind + 2) (le_refl _)
                rw [renderVal_arr_cons, nodesJson_arr]
                simp only [List.length_cons, List.length_append, spacesChars,
                  List.length_replicate, List.length_singleton]
                omega
        | obj fs =>
            cases fs with
            | nil =>
                rw [renderVal_obj_nil, nodesJson.eq_def]
                dsimp only
                rw [nodesFields_nil]
                simp
            | cons f fs =>
                have hlt : sizeOf f.2 + sizeOf fs < n := by
                  obtain ⟨a, b⟩ := f
                  have : sizeOf (Json.obj ((a, b) :: fs)) =
                      1 + (1 + (1 + sizeOf a + sizeOf b) + sizeOf fs) := by
                    simp
                  simp only at hs ⊢
                  omega
                have h2 := (ih (sizeOf f.2 + sizeOf fs) hlt).2.2 f fs (ind + 2) (le_refl _)
                rw [renderVal_obj_cons, nodesJson_obj]
                simp only [List.length_cons, List.length_append, spacesChars,
                  List.length_replicate, List.length_singleton]
                omega
      · intro x xs ind hs
        have hx : sizeOf x < n := by
          have : 1 ≤ sizeOf xs := by cases xs <;> simp <;> omega
          omega
        have h1 := (ih (sizeOf x) hx).1 x ind (le_refl _)
        cases xs with
        | nil =>
            rw [renderElems_eq, renderElemsTail_nil, nodesList_cons, nodesList_nil]
            simp only [List.length_append, List.append_nil, spacesChars, List.length_replicate]
            omega
        | cons y ys =>
            have hlt : sizeOf y + sizeOf ys < n := by
              have : sizeOf (y :: ys) = 1 + sizeOf y + sizeOf ys := by simp
              have : 1 ≤ sizeOf x := by cases x <;> simp_arith
              omega
            have h2 := (ih (sizeOf y + sizeOf ys) hlt).2.1 y ys ind (le_refl _)
            rw [renderElems_eq, renderElemsTail_cons, nodesList_cons]
            simp only [List.length_append, List.length_cons, spacesChars, List.length_replicate]
            omega
      · intro f fs ind hs
        have hf2 : sizeOf f.2 < n := by
          have : 1 ≤ sizeOf fs := by cases fs <;> simp <;> omega
          omega
        have h1 := (ih (sizeOf f.2) hf2).1 f.2 ind (le_refl _)
        cases fs with
        | nil =>
            rw [renderFields_eq, renderFieldsTail_nil, nodesFields_cons, nodesFields_nil]
            simp only [List.length_append, List.append_nil, spacesChars, List.length_replicate,
              List.length_cons, quoteChars]
            omega
        | cons g gs =>
            have hlt : sizeOf g.2 + sizeOf gs < n := by
              obtain ⟨a, b⟩ := g
              have h3 : sizeOf ((a, b) :: gs) = 1 + (1 + sizeOf a + sizeOf b) + sizeOf gs := by
                simp
              simp only at hs ⊢
              omega
            have h2 := (ih (sizeOf g.2 + sizeOf gs) hlt).2.2 g gs ind (le_refl _)
            rw [renderFields_eq, renderFieldsTail_cons, nodesFields_cons]
            simp only [List.length_append, List.length_cons, spacesChars, List.length_replicate]
            omega

theorem parseJson_stringify (v : Json) : parseJson (jsonStringify v) = some v := by
  have hlen : nodesJson v ≤ (renderVal 0 v).length + 1 := by
    have := (len_bound (sizeOf v)).1 v 0 (le_refl _)
    omega
  have hmain := (parse_render_main ((renderVal 0 v).length + 1)).1 v 0 [] []
    wsOnly_nil hlen trivial
  simp only [List.nil_append, List.append_nil] at hmain
  unfold parseJson jsonStringify
  rw [show (String.mk (renderVal 0 v)).data = renderVal 0 v from rfl,
    show (String.mk (renderVal 0 v)).data.length = (renderVal 0 v).length from rfl]
  rw [hmain]
  rfl

/-- C7: a successful JSON response to `get_daily_note` comes back as a
success envelope with one text block holding `JSON.stringify(v, null, 2)`,
and `JSON.parse` of that text gives back exactly the response value:
pretty-printing then parsing is the identity. -/
theorem get_daily_note_roundtrip (config : Config) (args : ToolArgs) (v : Json) :
    (handleCallTool config ("get_daily_note") args
        (fun _ => { status := 200, statusText := "OK", body := v })).1 =
      { content := [{ type := "text", text := jsonStringify v }], isError := false } ∧
    parseJson (jsonStringify v) = some v :=
  ⟨rfl, parseJson_stringify v⟩
